import Mathlib

/-!
# MCMOL meteorological pipeline: formal model

A shallow embedding of the MCMOL cumulative-rainfall system
(`MCMOL_cumulate_fixed.py`, `Peq0_Automatized.py`).  Pure numeric code is
translated into Lean functions over `ℝ`/`ℚ`; filesystem state is passed
explicitly; Python/NumPy floating point is modelled over `Option ℝ`, where
`none` stands for a non-finite IEEE value (NaN or an infinity) and every
arithmetic operation propagates it, matching NumPy's behaviour for the
operations this code performs (in this formula no non-finite intermediate
ever maps back to a finite value, so the single `none` marker is faithful).
-/

namespace MCMOL

/-! ## Float model (NumPy scalar/array operations over `Option ℝ`) -/

namespace Fl

/-- Float addition: NaN/Inf propagates. -/
def add : Option ℝ → Option ℝ → Option ℝ
  | some a, some b => some (a + b)
  | _, _ => none

/-- Float subtraction: NaN/Inf propagates. -/
def sub : Option ℝ → Option ℝ → Option ℝ
  | some a, some b => some (a - b)
  | _, _ => none

/-- Float multiplication: NaN/Inf propagates. -/
def mul : Option ℝ → Option ℝ → Option ℝ
  | some a, some b => some (a * b)
  | _, _ => none

/-- Float division: division by `0` gives a non-finite result
(`0/0 = NaN`, `x/0 = ±Inf`); NaN/Inf propagates. -/
noncomputable def div : Option ℝ → Option ℝ → Option ℝ
  | some a, some b => if b = 0 then none else some (a / b)
  | _, _ => none

/-- `np.sqrt`: a negative argument gives NaN; NaN/Inf propagates. -/
noncomputable def sqrt : Option ℝ → Option ℝ
  | some a => if a < 0 then none else some (Real.sqrt a)
  | none => none

/-- `np.maximum`: NaN propagates (NumPy `maximum`, not `fmax`). -/
def fmax : Option ℝ → Option ℝ → Option ℝ
  | some a, some b => some (max a b)
  | _, _ => none

end Fl

/-! ## `Peq0_Automatized.calcola_peq0` (modified SCS-CN formula) -/

/-- `s = 25400 / cn - 254`, as a real number (finite `cn ≠ 0`). -/
noncomputable def sVal (cn : ℝ) : ℝ := 25400 / cn - 254

/-- The radicand `s * (p5 + ((1 - lam) / 2) ** 2 * s)` computed inside
`calcola_peq0` (source line `sqrt_term = ...`), as a real number. -/
noncomputable def radicand (p5 cn lam : ℝ) : ℝ :=
  sVal cn * (p5 + ((1 - lam) / 2) ^ 2 * sVal cn)

/-- `m = np.maximum(np.sqrt(sqrt_term) - ((1 + lam) / 2) * s, 0)`, as a real
number (meaningful when the radicand is nonnegative). -/
noncomputable def mVal (p5 cn lam : ℝ) : ℝ :=
  max (Real.sqrt (radicand p5 cn lam) - (1 + lam) / 2 * sVal cn) 0

/-- `m * (1 + lam * s / (s + m))`, as a real number (meaningful when
`s + m ≠ 0`). -/
noncomputable def peq0R (p5 cn lam : ℝ) : ℝ :=
  mVal p5 cn lam * (1 + lam * sVal cn / (sVal cn + mVal p5 cn lam))

/-- `calcola_peq0(p5, cn, lam)` from `Peq0_Automatized.py`, over the float
model: `s = 25400 / cn - 254`; `sqrt_term = s * (p5 + ((1-lam)/2)**2 * s)`;
`m = np.maximum(np.sqrt(sqrt_term) - ((1+lam)/2)*s, 0)`;
result `m * (1 + lam*s/(s+m))`.  A `none` result is a NaN/Inf float. -/
noncomputable def calcola_peq0 (p5 cn lam : ℝ) : Option ℝ :=
  let s := Fl.sub (Fl.div (some 25400) (some cn)) (some 254)
  let sqrt_term := Fl.mul s (Fl.add (some p5) (Fl.mul (some (((1 - lam) / 2) ^ 2)) s))
  let m := Fl.fmax (Fl.sub (Fl.sqrt sqrt_term) (Fl.mul (some ((1 + lam) / 2)) s)) (some 0)
  Fl.mul m (Fl.add (some 1) (Fl.div (Fl.mul (some lam) s) (Fl.add s m)))

/-- Modelled from the spec: the variant of `calcola_peq0` that the spec
demands, clamping the radicand at zero before the square root ("if it is
[negative], the implementation must clamp at zero before the square root").
Not present in the source; used only to compare with the actual code. -/
noncomputable def calcola_peq0_spec_clamped (p5 cn lam : ℝ) : Option ℝ :=
  let s := Fl.sub (Fl.div (some 25400) (some cn)) (some 254)
  let sqrt_term := Fl.mul s (Fl.add (some p5) (Fl.mul (some (((1 - lam) / 2) ^ 2)) s))
  let m := Fl.fmax (Fl.sub (Fl.sqrt (Fl.fmax sqrt_term (some 0))) (Fl.mul (some ((1 + lam) / 2)) s)) (some 0)
  Fl.mul m (Fl.add (some 1) (Fl.div (Fl.mul (some lam) s) (Fl.add s m)))

/-! ## Archive model (`MCMOL_cumulate_fixed.py`)

Hourly files are identified by their timestamp, an integer number of hours
(the `MCM_<YYYYMMDDHH>0000.tif` naming template and the
year/month/day path partition are a bijective rendering of that timestamp,
so a file identity is modelled by its hour).  The raster cell data of a
file is a `Grid`; the state of an archive slot mirrors the classification
chain `os.path.isfile` / `getsize == 0` / `verifica_file_tiff`. -/

/-- A raster's cell data: a 2-D grid of float values (shape left implicit;
all archive rasters share one grid shape). -/
abbrev Grid := ℕ → ℕ → ℝ

/-- State of one hourly archive slot: absent, present with zero size,
present but failing `verifica_file_tiff`, or readable with cell data `g`
and embedded coordinate-reference EPSG code `crs`. -/
inductive FileState where
  | missing
  | empty
  | corrupt
  | valid (g : Grid) (crs : ℕ)

/-- The archive filesystem: each hourly timestamp maps to a slot state. -/
abbrev ArchiveFS := ℤ → FileState

/-- Whether a slot holds a readable file (passes all three checks). -/
def FileState.isValid : FileState → Bool
  | .valid _ _ => true
  | _ => false

/-- Cell data of a slot (the grid `src.read(1)` returns); zero grid for a
slot that cannot be read (never used on such a slot). -/
def FileState.grid0 : FileState → Grid
  | .valid g _ => g
  | _ => fun _ _ => 0

/-- Cell data of a slot, `none` when the slot has no readable content. -/
def FileState.gridOf : FileState → Option Grid
  | .valid g _ => some g
  | _ => none

/-- Annotation attached to a problematic file in the problem lists
(`(missing)` / `(empty)` / `(corrupted)`, resp. `(empty file)` /
`(corrupted file)` in the archive scan). -/
inductive Reason where
  | missingFile
  | emptyFile
  | corruptedFile
deriving DecidableEq

/-- The `while ora_corrente <= ora_limite` enumeration loop of
`controlla_file_archivio_completo`: all hours from `start` to `limit`,
both ends included, stepping one hour. -/
def hourRange (start limit : ℤ) : List ℤ :=
  if h : start ≤ limit then start :: hourRange (start + 1) limit else []
termination_by (limit + 1 - start).toNat
decreasing_by
  omega

/-- Result of `controlla_file_archivio_completo`: the counter
`file_trovati` and the two problem lists (entries identified by timestamp,
corrupt entries annotated with the reason). -/
structure ScanResult where
  trovati : ℕ
  mancanti : List ℤ
  corrotti : List (ℤ × Reason)

/-- One classification step of the archive scan: the
`if not os.path.isfile / elif file_size == 0 / elif not verifica_file_tiff
/ else` chain of `controlla_file_archivio_completo`. -/
def scanStep (fs : ArchiveFS) (r : ScanResult) (t : ℤ) : ScanResult :=
  match fs t with
  | .missing => { r with mancanti := r.mancanti ++ [t] }
  | .empty => { r with corrotti := r.corrotti ++ [(t, .emptyFile)] }
  | .corrupt => { r with corrotti := r.corrotti ++ [(t, .corruptedFile)] }
  | .valid _ _ => { r with trovati := r.trovati + 1 }

/-- `controlla_file_archivio_completo(ora_inizio_processo)` from
`MCMOL_cumulate_fixed.py`: `ora_limite = T - ORE_ESCLUSE_RECENTI`,
`ora_inizio_controllo = ora_limite - ORE_CONTROLLO_ARCHIVIO`; enumerate
the hours between them inclusive and classify each slot.  `T` is the
process-start hour; `C`/`E` are the two configuration values. -/
def controlla_file_archivio_completo (fs : ArchiveFS) (T : ℤ) (C E : ℕ) : ScanResult :=
  let ora_limite := T - E
  let ora_inizio_controllo := ora_limite - C
  let ore_da_controllare := hourRange ora_inizio_controllo ora_limite
  ore_da_controllare.foldl (scanStep fs) ⟨0, [], []⟩

/-- The aggregation window of `calcolo_cumulata`:
`[ora_primo_file + (i+1) hours for i in range(durata)]` with
`ora_primo_file = anchor - durata`, i.e. the `durata` hours strictly
after `anchor - durata` up to and including `anchor`. -/
def listaDate (anchor : ℤ) (durata : ℕ) : List ℤ :=
  (List.range durata).map (fun i : ℕ => anchor - (durata : ℤ) + ((i : ℤ) + 1))

/-- The file-collection loop of `calcolo_cumulata`: split the window into
the valid work list (`lista_file`) and the annotated problem list
(`file_problematici`), both in window order. -/
def classifica (fs : ArchiveFS) : List ℤ → List ℤ × List (ℤ × Reason)
  | [] => ([], [])
  | t :: ts =>
    let r := classifica fs ts
    match fs t with
    | .valid _ _ => (t :: r.1, r.2)
    | .missing => (r.1, (t, .missingFile) :: r.2)
    | .empty => (r.1, (t, .emptyFile) :: r.2)
    | .corrupt => (r.1, (t, .corruptedFile) :: r.2)

/-- Result of `calcolo_cumulata`: the returned `(success, file_problematici)`
pair, the accumulation buffer `data` (absent on failure), and the archive
state after the run (the run can write: the first valid file is opened in
`'r+'` mode). -/
structure CumResult where
  success : Bool
  problemi : List (ℤ × Reason)
  buffer : Option Grid
  fs : ArchiveFS

/-- `calcolo_cumulata(durata_cumulata)` from `MCMOL_cumulate_fixed.py`,
parameterised by the anchor hour (in the source, the timestamp parsed from
the lexicographically last file of today's partition directory; discovering
it is directory I/O outside this model).  Steps: build the window, classify
each slot, fail outright when no valid file remains; otherwise open the
first valid file with `rasterio.open(..., 'r+')` and stamp
`src.crs = CRS.from_epsg(4326)` (mutating that file's metadata), read its
grid, and add every remaining valid file's grid cell-wise.  The later
temp-file writes, zone clipping, map rendering and percentile export are
presentation/I-O on non-archive paths, modelled as succeeding. -/
def calcolo_cumulata (fs : ArchiveFS) (anchor : ℤ) (durata : ℕ) : CumResult :=
  let dates := listaDate anchor durata
  let cls := classifica fs dates
  match cls.1 with
  | [] => ⟨false, cls.2, none, fs⟩
  | f0 :: rest =>
    let fs' : ArchiveFS := fun t =>
      if t = f0 then
        match fs f0 with
        | .valid g _ => .valid g 4326
        | s => s
      else fs t
    let data : Grid :=
      rest.foldl (fun acc t => fun i j => acc i j + (fs t).grid0 i j) ((fs f0).grid0)
    ⟨true, cls.2, some data, fs'⟩

/-! ## Curve-Number cache (`Peq0_Automatized.calcola_cn_per_zone`) -/

/-- Trailing decimal digits of a string (the characters the regex
`(\d{1,2})$` inspects at the end of a raster file's stem). -/
def trailingDigits (s : String) : List Char :=
  (s.data.reverse.takeWhile Char.isDigit).reverse

/-- Numeric value of a digit list (most significant first). -/
def digitsToNat (ds : List Char) : ℕ :=
  ds.foldl (fun n c => 10 * n + (c.toNat - 48)) 0

/-- `re.search(r"(\d{1,2})$", asc.stem)` followed by `int(m.group())`:
the last one or two digits at the very end of the stem (the regex is
greedy, so with three or more trailing digits it captures the last two);
`none` when the stem does not end in a digit. -/
def zoneNumOfStem (s : String) : Option ℕ :=
  match trailingDigits s with
  | [] => none
  | ds => some (digitsToNat (ds.drop (ds.length - 2)))

/-- `f"IM-{n:02d}"`: the canonical zone key. -/
def imKey (n : ℕ) : String :=
  "IM-" ++ (if n < 10 then "0" ++ Nat.repr n else Nat.repr n)

/-- Parsed content of the persisted JSON cache file:
`{"zone_cn": .., "mtimes": ..}` (dicts modelled as association lists in
insertion order). -/
structure CacheData where
  zone_cn : List (String × ℝ)
  mtimes : List (String × ℤ)

/-- One `.ASC` raster in the CN raster folder: its path, its stem, the
mean of its valid (non-masked) cells, and its current modification time. -/
structure AscFile where
  path : String
  stem : String
  meanCN : ℝ
  mtime : ℤ

/-- Filesystem state seen by `calcola_cn_per_zone`: the cache file
(`none` when absent or unparseable), the current modification time of any
path (`none` when the path no longer exists, in which case
`os.path.getmtime` raises), and the `.ASC` files of the raster folder in
the sorted order `sorted(folder.glob("*.ASC"))` produces. -/
structure CnFS where
  cacheFile : Option CacheData
  mtimeOf : String → Option ℤ
  folder : List AscFile

/-- Result of `calcola_cn_per_zone`: the zone → average-CN mapping, the
list of raster paths actually opened, and the filesystem afterwards (a
recomputation rewrites the cache file). -/
structure CnResult where
  zone_cn : List (String × ℝ)
  opened : List String
  fs : CnFS

/-- Python dict assignment `zone_cn[key] = v` on an association list:
replace in place or append. -/
def upsert : List (String × ℝ) → String → ℝ → List (String × ℝ)
  | [], k, v => [(k, v)]
  | (k', v') :: rest, k, v =>
    if k' = k then (k, v) :: rest else (k', v') :: upsert rest k v

/-- The recomputation branch of `calcola_cn_per_zone`: for every `.ASC`
file whose stem ends in a recognisable zone number, read it, record its
masked mean under the canonical key and its modification time, then
persist the fresh snapshot, fully replacing the old cache. -/
def ricalcola_cn (fs : CnFS) : CnResult :=
  let acc := fs.folder.foldl
    (fun (acc : List (String × ℝ) × List (String × ℤ)) f =>
      match zoneNumOfStem f.stem with
      | none => acc
      | some n => (upsert acc.1 (imKey n) f.meanCN, acc.2 ++ [(f.path, f.mtime)]))
    ([], [])
  ⟨acc.1, acc.2.map Prod.fst, { fs with cacheFile := some ⟨acc.1, acc.2⟩ }⟩

/-- `calcola_cn_per_zone(folder, cache)` from `Peq0_Automatized.py`: if the
cache file exists and parses and
`all(os.path.getmtime(p) == data["mtimes"].get(p) for p in data["mtimes"])`
holds (a vanished path raises, landing in the `except` branch, i.e. the
condition fails), return the persisted averages unchanged without opening
any raster; otherwise recompute everything and rewrite the cache. -/
def calcola_cn_per_zone (fs : CnFS) : CnResult :=
  match fs.cacheFile with
  | some data =>
    if data.mtimes.all (fun pt => fs.mtimeOf pt.1 == some pt.2) then
      ⟨data.zone_cn, [], fs⟩
    else ricalcola_cn fs
  | none => ricalcola_cn fs

/-! ## Zone normalisation and sheet processing (`Peq0_Automatized.py`) -/

/-- A cell value of the zone column as Python sees it: `None`, a float
NaN, a number (every finite float is a rational), or a string. -/
inductive PyVal where
  | pynone
  | pynan
  | pynum (q : ℚ)
  | pystr (s : String)

/-- Whitespace removed by Python `str.strip()` (common cases). -/
def isPyWhite (c : Char) : Bool :=
  c = ' ' || c = '\t' || c = '\n' || c = '\r'

/-- `str.strip()`: drop whitespace at both ends. -/
def trimWhite (cs : List Char) : List Char :=
  ((cs.dropWhile isPyWhite).reverse.dropWhile isPyWhite).reverse

/-- Python `float(s)` on a decimal literal: optional surrounding
whitespace, optional sign, digits with an optional fractional part
(`"5"`, `"5."`, `".5"`, `"-05.25"`; exponent forms and `inf`/`nan`
words are not modelled — they never normalise to a zone anyway). -/
def pyParseFloat (s : String) : Option ℚ :=
  let cs := trimWhite s.data
  let core := fun (t : List Char) (sign : ℚ) =>
    let intd := t.takeWhile Char.isDigit
    let rest := t.dropWhile Char.isDigit
    match rest with
    | [] => if intd = [] then none else some (sign * digitsToNat intd)
    | '.' :: frac =>
      let fd := frac.takeWhile Char.isDigit
      let rest2 := frac.dropWhile Char.isDigit
      if rest2 = [] then
        if intd = [] && fd = [] then none
        else some (sign * ((digitsToNat intd : ℚ) + (digitsToNat fd : ℚ) / 10 ^ fd.length))
      else none
    | _ => none
  match cs with
  | '+' :: t => core t 1
  | '-' :: t => core t (-1)
  | t => core t 1

/-- `float(z)` for the values the zone column can hold: numbers convert to
themselves, strings are parsed; `None` raises (lands in `except`). -/
def pyFloatOfVal : PyVal → Option ℚ
  | .pynum q => some q
  | .pystr s => pyParseFloat s
  | _ => none

/-- The two regex matches of `normalizza_zona` on the cleaned string:
`re.fullmatch(r"IM\d{1,2}", z)` then `re.fullmatch(r"IM-\d{1,2}", z)`,
each producing `IM-%02d` of the digit group. -/
def stringMatchIM (u : List Char) : Option String :=
  match u with
  | 'I' :: 'M' :: rest =>
    match rest with
    | '-' :: ds =>
      if ds ≠ [] && ds.length ≤ 2 && ds.all Char.isDigit then
        some (imKey (digitsToNat ds))
      else none
    | ds =>
      if ds ≠ [] && ds.length ≤ 2 && ds.all Char.isDigit then
        some (imKey (digitsToNat ds))
      else none
  | _ => none

/-- `z_str = str(z).strip().upper().replace(" ", "")` followed by the two
regex matches.  `str` of a number is its decimal rendering, which can
never match `IM…`, so the string path of a number yields `none`. -/
def stringPath (z : PyVal) : Option String :=
  match z with
  | .pystr s => stringMatchIM ((trimWhite s.data).map Char.toUpper |>.filter (fun c => c ≠ ' '))
  | _ => none

/-- `normalizza_zona(z)` from `Peq0_Automatized.py`: `None`/NaN give
`None`; then the numeric attempt (`float(z)`, `num.is_integer()` and
`0 < num < 100` give `IM-%02d`); then the string fallback. -/
def normalizza_zona (z : PyVal) : Option String :=
  match z with
  | .pynone => none
  | .pynan => none
  | z =>
    match pyFloatOfVal z with
    | some q =>
      if q.den = 1 && decide (0 < q) && decide (q < 100) then some (imKey q.num.toNat)
      else stringPath z
    | none => stringPath z

/-- Round half to even at `d = 0` decimals (NumPy `np.round` tie rule). -/
noncomputable def roundEven (y : ℝ) : ℤ :=
  if Int.fract y = 1 / 2 then (if Even ⌊y⌋ then ⌊y⌋ else ⌊y⌋ + 1) else round y

/-- `np.round(x, 2)` on a finite value (half-to-even at two decimals;
decimal scaling of the underlying binary float is idealised). -/
noncomputable def npRound2 (x : ℝ) : ℝ := (roundEven (x * 100) : ℝ) / 100

/-- One spreadsheet row: the zone cell (first column) and the percentile
cells (remaining columns); a `none` cell is a NaN. -/
structure SheetRow where
  zona : PyVal
  vals : List (Option ℝ)

/-- The loop body of `process_sheet`: `key = normalizza_zona(row[zone_col])`;
`if not key: continue`; `if key not in zone_cn: continue`; otherwise
replace the value cells by `np.round(calcola_peq0(p5, cn), 2)`. -/
noncomputable def processRow (zone_cn : List (String × ℝ)) (lam : ℝ)
    (row : SheetRow) : SheetRow :=
  match normalizza_zona row.zona with
  | none => row
  | some key =>
    match zone_cn.lookup key with
    | none => row
    | some cn =>
      { row with
        vals := row.vals.map (fun p =>
          (p.bind (fun x => calcola_peq0 x cn lam)).map npRound2) }

/-- `process_sheet(df, zone_cn)` from `Peq0_Automatized.py`, with the
configured `LAMBDA` passed explicitly: every row whose zone cell fails
`normalizza_zona` or whose key is not in `zone_cn` is left untouched
(`continue`); every other row has its value cells transformed; the zone
column and row order are those of the input copy. -/
noncomputable def process_sheet (df : List SheetRow) (zone_cn : List (String × ℝ))
    (lam : ℝ) : List SheetRow :=
  df.map (processRow zone_cn lam)

/-! ## Zonal percentiles (`MCMOL_cumulate_fixed.calcolo_percentili`) -/

/-- One polygon row of the zone layer: its `id` attribute value (only
meaningful when the layer has an `id` column) and the valid raster cells
its geometry touches after nodata removal (the geometric extraction is
raster I/O, carried as input data). -/
structure ZoneRow where
  idv : ℤ
  cells : List ℝ

/-- The zone polygon layer: whether an `id` column exists, and its rows in
`gdf.iterrows()` order. -/
structure ZoneLayer where
  hasId : Bool
  rows : List ZoneRow

/-- An output row of the percentile table after `rename(id → IM)` and
`df["IM"] += 1`: the `IM` identifier and one value per requested
percentile (`none` is a NaN). -/
structure PercRow where
  IM : ℤ
  percs : List (Option ℝ)

/-- Insertion into a sorted list (ascending). -/
noncomputable def insertSortedR (x : ℝ) : List ℝ → List ℝ
  | [] => [x]
  | y :: ys => if x ≤ y then x :: y :: ys else y :: insertSortedR x ys

/-- Ascending sort of the valid cells. -/
noncomputable def sortR (l : List ℝ) : List ℝ := l.foldr insertSortedR []

/-- `np.percentile(valid, q)`: linear interpolation between the order
statistics of the sorted data (the conventional definition). -/
noncomputable def npPercentile (xs : List ℝ) (q : ℕ) : ℝ :=
  let sorted := sortR xs
  let n := xs.length
  let pos : ℝ := (q : ℝ) / 100 * ((n : ℝ) - 1)
  let i : ℕ := (⌊pos⌋).toNat
  let lo := sorted.getD i 0
  let hi := sorted.getD (min (i + 1) (n - 1)) 0
  lo + (pos - (⌊pos⌋ : ℝ)) * (hi - lo)

/-- The per-zone loop body of `calcolo_percentili`: the record
`{'id': row.get('id', idx), **{f'p{p}': …}}` — the `id` attribute when the
layer has an `id` column, otherwise the 0-based `iterrows` index; NaN
percentiles when the zone has no valid cells. -/
noncomputable def percRowOf (hasId : Bool) (percList : List ℕ) (idx : ℕ)
    (r : ZoneRow) : PercRow :=
  { IM := (if hasId then r.idv else (idx : ℤ)) + 1,
    percs :=
      if r.cells.isEmpty then percList.map (fun _ => none)
      else percList.map (fun p => some (npPercentile r.cells p)) }

/-- The `iterrows` loop of `calcolo_percentili`, carrying the 0-based
index. -/
noncomputable def buildPercRows (hasId : Bool) (percList : List ℕ) :
    ℕ → List ZoneRow → List PercRow
  | _, [] => []
  | idx, r :: rs => percRowOf hasId percList idx r :: buildPercRows hasId percList (idx + 1) rs

/-- `calcolo_percentili(durata, raster_path)` from
`MCMOL_cumulate_fixed.py`, restricted to the table it constructs (the
Excel export and its 1-decimal display rounding are presentation):
per-zone percentile rows with `IM = row.get('id', idx) + 1`. -/
noncomputable def calcolo_percentili (percList : List ℕ) (layer : ZoneLayer) :
    List PercRow :=
  buildPercRows layer.hasId percList 0 layer.rows

/-! ## Concrete fixtures used to instantiate the general theorems -/

/-- The all-zero grid. -/
def gridZero : Grid := fun _ _ => 0

/-- An archive in which every hourly slot holds a readable file whose
embedded reference system is EPSG:32632. -/
def fsAllValid : ArchiveFS := fun _ => .valid gridZero 32632

/-- An archive in which every hourly slot is absent. -/
def fsAllMissing : ArchiveFS := fun _ => .missing

/-- Total of trovati and the two problem-list lengths of a scan. -/
def scanCount (r : ScanResult) : ℕ :=
  r.trovati + r.mancanti.length + r.corrotti.length

/-- A parsed CN cache recording one zone average and one source file. -/
def dataCn : CacheData := ⟨[("IM-01", (85 : ℝ))], [("cn_zone_1.ASC", 5)]⟩

/-- A filesystem on which the cache of `dataCn` is valid (the recorded
modification time matches) and the raster folder is as recorded. -/
def fsCnHit : CnFS :=
  ⟨some dataCn, fun p => if p = "cn_zone_1.ASC" then some 5 else none,
    [⟨"cn_zone_1.ASC", "cn_zone_1", 85, 5⟩]⟩

/-- A CN raster added to the folder after the cache of `dataCn` was
written: its path is not recorded in the cache. -/
def newAsc : AscFile := ⟨"cn_zone_2.ASC", "cn_zone_2", 77, 9⟩

/-- A filesystem whose cache (over its recorded paths) is still valid even
though `newAsc` has since been added to the folder. -/
def fsCnStale : CnFS :=
  ⟨some dataCn, fun p => if p = "cn_zone_1.ASC" then some 5 else none,
    [⟨"cn_zone_1.ASC", "cn_zone_1", 85, 5⟩, newAsc]⟩

/-- A zone layer that carries an `id` column whose value (7) differs from
the 0-based position (0) of its only row. -/
def layerWithId : ZoneLayer := ⟨true, [⟨7, []⟩]⟩

/-- The same single-zone layer without an `id` column. -/
def layerNoId : ZoneLayer := ⟨false, [⟨7, []⟩]⟩

/-- A two-row sheet: a zone cell that fails normalisation, and a numeric
zone cell that normalises to `IM-01`. -/
def dfFrame : List SheetRow :=
  [⟨.pystr "XX", [some 1]⟩, ⟨.pynum 1, [some 2]⟩]

/-! # Theorems -/

/-! ## Float-model equations -/

@[simp] theorem Fl.add_some (a b : ℝ) : Fl.add (some a) (some b) = some (a + b) := rfl

@[simp] theorem Fl.sub_some (a b : ℝ) : Fl.sub (some a) (some b) = some (a - b) := rfl

@[simp] theorem Fl.mul_some (a b : ℝ) : Fl.mul (some a) (some b) = some (a * b) := rfl

@[simp] theorem Fl.fmax_some (a b : ℝ) : Fl.fmax (some a) (some b) = some (max a b) := rfl

@[simp] theorem Fl.div_some (a b : ℝ) :
    Fl.div (some a) (some b) = if b = 0 then none else some (a / b) := rfl

@[simp] theorem Fl.sqrt_some (a : ℝ) :
    Fl.sqrt (some a) = if a < 0 then none else some (Real.sqrt a) := rfl

@[simp] theorem Fl.add_none_left (b : Option ℝ) : Fl.add none b = none := by
  cases b <;> rfl

@[simp] theorem Fl.add_none_right (a : Option ℝ) : Fl.add a none = none := by
  cases a <;> rfl

@[simp] theorem Fl.sub_none_left (b : Option ℝ) : Fl.sub none b = none := by
  cases b <;> rfl

@[simp] theorem Fl.sub_none_right (a : Option ℝ) : Fl.sub a none = none := by
  cases a <;> rfl

@[simp] theorem Fl.mul_none_left (b : Option ℝ) : Fl.mul none b = none := by
  cases b <;> rfl

@[simp] theorem Fl.mul_none_right (a : Option ℝ) : Fl.mul a none = none := by
  cases a <;> rfl

@[simp] theorem Fl.fmax_none_left (b : Option ℝ) : Fl.fmax none b = none := by
  cases b <;> rfl

@[simp] theorem Fl.fmax_none_right (a : Option ℝ) : Fl.fmax a none = none := by
  cases a <;> rfl

@[simp] theorem Fl.div_none_left (b : Option ℝ) : Fl.div none b = none := by
  cases b <;> rfl

@[simp] theorem Fl.div_none_right (a : Option ℝ) : Fl.div a none = none := by
  cases a <;> rfl

@[simp] theorem Fl.sqrt_none : Fl.sqrt none = none := rfl

/-! ## Analysis of `calcola_peq0` -/

theorem sVal_nonneg {cn : ℝ} (hcn : 0 < cn) (h100 : cn ≤ 100) : 0 ≤ sVal cn := by
  rw [sVal, sub_nonneg, le_div_iff₀ hcn]
  nlinarith

theorem sVal_pos {cn : ℝ} (hcn : 0 < cn) (h100 : cn < 100) : 0 < sVal cn := by
  rw [sVal, sub_pos, lt_div_iff₀ hcn]
  nlinarith

theorem radicand_nonneg {p cn lam : ℝ} (hp : 0 ≤ p) (hs : 0 ≤ sVal cn) :
    0 ≤ radicand p cn lam := by
  rw [radicand]
  have h1 : 0 ≤ p + ((1 - lam) / 2) ^ 2 * sVal cn :=
    add_nonneg hp (mul_nonneg (sq_nonneg _) hs)
  exact mul_nonneg hs h1

theorem mVal_nonneg (p cn lam : ℝ) : 0 ≤ mVal p cn lam := le_max_right _ 0

theorem mVal_zero {cn lam : ℝ} (hs : 0 ≤ sVal cn) (hl0 : 0 ≤ lam) (hl1 : lam ≤ 1) :
    mVal 0 cn lam = 0 := by
  rw [mVal]
  have h1 : radicand 0 cn lam = ((1 - lam) / 2 * sVal cn) ^ 2 := by
    rw [radicand]; ring
  have h2 : 0 ≤ (1 - lam) / 2 * sVal cn :=
    mul_nonneg (by linarith) hs
  rw [h1, Real.sqrt_sq h2]
  apply max_eq_right
  nlinarith

theorem mVal_mono {p₁ p₂ cn lam : ℝ} (hs : 0 ≤ sVal cn) (h12 : p₁ ≤ p₂) :
    mVal p₁ cn lam ≤ mVal p₂ cn lam := by
  rw [mVal, mVal]
  apply max_le_max _ (le_refl 0)
  apply sub_le_sub_right
  apply Real.sqrt_le_sqrt
  rw [radicand, radicand]
  exact mul_le_mul_of_nonneg_left (by linarith) hs

theorem peq_body_mono {s lam m₁ m₂ : ℝ} (hs : 0 < s) (hlam : 0 ≤ lam)
    (h0 : 0 ≤ m₁) (h12 : m₁ ≤ m₂) :
    m₁ * (1 + lam * s / (s + m₁)) ≤ m₂ * (1 + lam * s / (s + m₂)) := by
  have hd1 : 0 < s + m₁ := by linarith
  have hd2 : 0 < s + m₂ := by linarith
  have key : m₁ / (s + m₁) ≤ m₂ / (s + m₂) := by
    rw [div_le_div_iff₀ hd1 hd2]
    nlinarith
  have e : ∀ m : ℝ, m * (1 + lam * s / (s + m)) = m + lam * s * (m / (s + m)) :=
    fun m => by ring
  rw [e m₁, e m₂]
  have h2 : lam * s * (m₁ / (s + m₁)) ≤ lam * s * (m₂ / (s + m₂)) :=
    mul_le_mul_of_nonneg_left key (by positivity)
  linarith

/-- When `cn ≠ 0`, the radicand is nonnegative and `s + m ≠ 0`, every float
operation inside `calcola_peq0` stays finite and the result is the real
value `peq0R`. -/
theorem calcola_peq0_eval {p cn lam : ℝ} (hcn : cn ≠ 0)
    (hrad : 0 ≤ radicand p cn lam) (hsm : sVal cn + mVal p cn lam ≠ 0) :
    calcola_peq0 p cn lam = some (peq0R p cn lam) := by
  have hrad' : ¬((25400 / cn - 254) * (p + ((1 - lam) / 2) ^ 2 * (25400 / cn - 254)) < 0) := by
    rw [radicand, sVal] at hrad
    exact not_lt.mpr hrad
  have hsm' :
      ¬(25400 / cn - 254 +
          max (Real.sqrt ((25400 / cn - 254) * (p + ((1 - lam) / 2) ^ 2 * (25400 / cn - 254)))
            - (1 + lam) / 2 * (25400 / cn - 254)) 0 = 0) := by
    rw [sVal, mVal, radicand, sVal] at hsm
    exact hsm
  rw [calcola_peq0]
  rw [Fl.div_some, if_neg hcn, Fl.sub_some, Fl.mul_some, Fl.add_some, Fl.mul_some,
    Fl.sqrt_some, if_neg hrad', Fl.mul_some, Fl.sub_some, Fl.fmax_some, Fl.mul_some,
    Fl.add_some, Fl.div_some, if_neg hsm', Fl.add_some, Fl.mul_some]
  rw [peq0R, mVal, radicand, sVal]

/-! ## Claims C5 and C8 (`calcola_peq0`) -/

/-- Claim C5, counterexample.  At the valid curve number `CN = 100`
(the claim ranges over `CN ∈ (0,100]`), `S = 0`, so the final division is
`0/0`: a NaN, not `0` — `calcola_peq0(0, 100, 0.2)` is not the value `0`
the claim asserts. -/
theorem C5_counterexample :
    (0 : ℝ) < 100 ∧ (100 : ℝ) ≤ 100 ∧
      calcola_peq0 0 100 (1 / 5) = none ∧ calcola_peq0 0 100 (1 / 5) ≠ some 0 := by
  have hnone : calcola_peq0 0 100 (1 / 5) = none := by
    rw [calcola_peq0]
    norm_num [Real.sqrt_zero]
  exact ⟨by norm_num, le_refl _, hnone, by rw [hnone]; simp⟩

/-- Claim C5, amended: for every `CN` strictly inside `(0, 100)` and
`λ ∈ [0,1]`, `calcola_peq0 0 CN λ = 0`, and `calcola_peq0` is monotonically
non-decreasing in the precipitation argument over `P ≥ 0` (at `CN = 100`
the source's unguarded `0/0` makes the result NaN instead). -/
theorem C5_amended_peq_zero_and_monotone (cn lam : ℝ) (hcn : 0 < cn)
    (h100 : cn < 100) (hl0 : 0 ≤ lam) (hl1 : lam ≤ 1) :
    calcola_peq0 0 cn lam = some 0 ∧
    ∀ p₁ p₂ y₁ y₂, 0 ≤ p₁ → p₁ ≤ p₂ →
      calcola_peq0 p₁ cn lam = some y₁ → calcola_peq0 p₂ cn lam = some y₂ →
      y₁ ≤ y₂ := by
  have hs : 0 < sVal cn := sVal_pos hcn h100
  have heval : ∀ p : ℝ, 0 ≤ p → calcola_peq0 p cn lam = some (peq0R p cn lam) := by
    intro p hp
    exact calcola_peq0_eval (ne_of_gt hcn) (radicand_nonneg hp (le_of_lt hs))
      (by nlinarith [mVal_nonneg p cn lam])
  constructor
  · rw [heval 0 (le_refl 0)]
    rw [peq0R, mVal_zero (le_of_lt hs) hl0 hl1]
    norm_num
  · intro p₁ p₂ y₁ y₂ hp1 h12 he1 he2
    rw [heval p₁ hp1] at he1
    rw [heval p₂ (le_trans hp1 h12)] at he2
    have hy1 : y₁ = peq0R p₁ cn lam := (Option.some.injEq _ _ ▸ he1).symm
    have hy2 : y₂ = peq0R p₂ cn lam := (Option.some.injEq _ _ ▸ he2).symm
    rw [hy1, hy2, peq0R, peq0R]
    exact peq_body_mono hs hl0 (mVal_nonneg p₁ cn lam)
      (mVal_mono (le_of_lt hs) h12)

/-- Claim C5, witness: at `CN = 50`, `λ = 0.2`, the transform of zero
precipitation is zero, and monotonicity holds at `P₁ = 0 ≤ P₂ = 0`. -/
theorem C5_witness :
    ((0 : ℝ) < 50 ∧ (50 : ℝ) < 100 ∧ (0 : ℝ) ≤ 1 / 5 ∧ (1 / 5 : ℝ) ≤ 1) ∧
      calcola_peq0 0 50 (1 / 5) = some 0 :=
  ⟨⟨by norm_num, by norm_num, by norm_num, by norm_num⟩,
    (C5_amended_peq_zero_and_monotone 50 (1 / 5) (by norm_num) (by norm_num)
      (by norm_num) (by norm_num)).1⟩

/-- Claim C8, counterexample.  At `P = 100`, `CN = 127`, `λ = 0`, the
radicand is `-4671 < 0`; the source takes `np.sqrt` of it directly — the
NaN propagates to the result (`none`) — whereas the clamp-before-sqrt
variant the claim describes returns `27`.  The implementation does not
clamp. -/
theorem C8_counterexample :
    radicand 100 127 0 < 0 ∧ calcola_peq0 100 127 0 = none ∧
      calcola_peq0_spec_clamped 100 127 0 = some 27 := by
  refine ⟨by rw [radicand, sVal]; norm_num, ?_, ?_⟩
  · rw [calcola_peq0]
    norm_num
  · rw [calcola_peq0_spec_clamped]
    norm_num [max_def, Real.sqrt_zero]

/-- Claim C8, amended: under valid inputs (`P ≥ 0`, `CN ∈ (0,100]`, any
`λ`) the radicand is never negative; and whenever a negative radicand does
arise the implementation does not clamp — `np.sqrt` produces a NaN that
propagates to the result. -/
theorem C8_amended_radicand :
    (∀ p cn lam : ℝ, 0 ≤ p → 0 < cn → cn ≤ 100 → 0 ≤ radicand p cn lam) ∧
    (∀ p cn lam : ℝ, radicand p cn lam < 0 → calcola_peq0 p cn lam = none) := by
  constructor
  · intro p cn lam hp hcn h100
    exact radicand_nonneg hp (sVal_nonneg hcn h100)
  · intro p cn lam hrad
    by_cases hcn : cn = 0
    · subst hcn
      rw [calcola_peq0]
      norm_num
    · have hrad' : (25400 / cn - 254) * (p + ((1 - lam) / 2) ^ 2 * (25400 / cn - 254)) < 0 := by
        rw [radicand, sVal] at hrad
        exact hrad
      rw [calcola_peq0]
      rw [Fl.div_some, if_neg hcn, Fl.sub_some, Fl.mul_some, Fl.add_some, Fl.mul_some,
        Fl.sqrt_some, if_pos hrad']
      simp

/-- Claim C8, witness: the nonnegativity part at `(P, CN, λ) = (1, 50, 0)`
and the NaN-propagation part at `(100, 127, 0)`. -/
theorem C8_witness :
    ((0 : ℝ) ≤ 1 ∧ (0 : ℝ) < 50 ∧ (50 : ℝ) ≤ 100 ∧ 0 ≤ radicand 1 50 0) ∧
      (radicand 100 127 0 < 0 ∧ calcola_peq0 100 127 0 = none) :=
  ⟨⟨by norm_num, by norm_num, by norm_num,
      C8_amended_radicand.1 1 50 0 (by norm_num) (by norm_num) (by norm_num)⟩,
    ⟨by rw [radicand, sVal]; norm_num,
      C8_amended_radicand.2 100 127 0 (by rw [radicand, sVal]; norm_num)⟩⟩

/-! ## Archive-window lemmas -/

theorem hourRange_cons {start limit : ℤ} (h : start ≤ limit) :
    hourRange start limit = start :: hourRange (start + 1) limit := by
  rw [hourRange]
  exact dif_pos h

theorem hourRange_stop {start limit : ℤ} (h : limit < start) :
    hourRange start limit = [] := by
  rw [hourRange]
  exact dif_neg (not_le.mpr h)

/-- Closed form of the enumeration loop: from `a` to `a + n` inclusive it
yields exactly the `n + 1` consecutive hours. -/
theorem hourRange_eq_range (n : ℕ) :
    ∀ a : ℤ, hourRange a (a + n) = (List.range (n + 1)).map (fun i : ℕ => a + (i : ℤ)) := by
  induction n with
  | zero =>
    intro a
    rw [hourRange_cons (by omega), hourRange_stop (by omega)]
    simp [List.range_succ]
  | succ n ih =>
    intro a
    rw [hourRange_cons (by omega)]
    have h2 : a + ((n + 1 : ℕ) : ℤ) = (a + 1) + (n : ℤ) := by push_cast; ring
    rw [h2, ih (a + 1)]
    conv_rhs => rw [List.range_succ_eq_map]
    rw [List.map_cons, List.map_map]
    simp only [Nat.cast_zero, add_zero]
    congr 1
    apply List.map_congr_left
    intro i _
    simp only [Function.comp_apply, Nat.succ_eq_add_one]
    push_cast
    ring

theorem scanStep_count (fs : ArchiveFS) (r : ScanResult) (t : ℤ) :
    scanCount (scanStep fs r t) = scanCount r + 1 := by
  rw [scanStep]
  cases fs t <;> simp [scanCount] <;> omega

theorem foldl_scanStep_count (fs : ArchiveFS) (l : List ℤ) :
    ∀ r : ScanResult, scanCount (l.foldl (scanStep fs) r) = scanCount r + l.length := by
  induction l with
  | nil => intro r; simp
  | cons t ts ih =>
    intro r
    rw [List.foldl_cons, ih (scanStep fs r t), scanStep_count]
    simp only [List.length_cons]
    omega

theorem listaDate_length (anchor : ℤ) (D : ℕ) : (listaDate anchor D).length = D := by
  simp [listaDate]

theorem classifica_all_valid (fs : ArchiveFS) (l : List ℤ)
    (h : ∀ t ∈ l, (fs t).isValid = true) : classifica fs l = (l, []) := by
  induction l with
  | nil => rfl
  | cons t ts ih =>
    have ht := h t (List.mem_cons_self t ts)
    have ihh := ih (fun x hx => h x (List.mem_cons_of_mem _ hx))
    cases hfs : fs t with
    | valid g c => simp [classifica, hfs, ihh]
    | missing => simp [FileState.isValid, hfs] at ht
    | empty => simp [FileState.isValid, hfs] at ht
    | corrupt => simp [FileState.isValid, hfs] at ht

theorem classifica_none_valid (fs : ArchiveFS) (l : List ℤ)
    (h : ∀ t ∈ l, (fs t).isValid = false) :
    (classifica fs l).1 = [] ∧ (classifica fs l).2.map Prod.fst = l := by
  induction l with
  | nil => exact ⟨rfl, rfl⟩
  | cons t ts ih =>
    have ht := h t (List.mem_cons_self t ts)
    have ihh := ih (fun x hx => h x (List.mem_cons_of_mem _ hx))
    cases hfs : fs t with
    | valid g c => simp [FileState.isValid, hfs] at ht
    | missing => simp [classifica, hfs, ihh.1, ihh.2]
    | empty => simp [classifica, hfs, ihh.1, ihh.2]
    | corrupt => simp [classifica, hfs, ihh.1, ihh.2]

theorem foldl_grid_apply (fs : ArchiveFS) (l : List ℤ) (i j : ℕ) :
    ∀ g : Grid,
      (l.foldl (fun acc t => fun i j => acc i j + (fs t).grid0 i j) g) i j
        = g i j + (l.map (fun t => (fs t).grid0 i j)).sum := by
  induction l with
  | nil => intro g; simp
  | cons t ts ih =>
    intro g
    rw [List.foldl_cons, ih, List.map_cons, List.sum_cons]
    ring

/-- The archive state produced by `calcolo_cumulata`: unchanged when the
work list is empty, otherwise equal to the input except that the first
valid file's reference system is stamped to EPSG:4326. -/
theorem cumulata_fs_eq (fs : ArchiveFS) (anchor : ℤ) (D : ℕ) :
    (calcolo_cumulata fs anchor D).fs =
      match (classifica fs (listaDate anchor D)).1 with
      | [] => fs
      | f0 :: _ => fun t =>
          if t = f0 then
            match fs f0 with
            | .valid g _ => .valid g 4326
            | s => s
          else fs t := by
  rw [calcolo_cumulata]
  cases hc : (classifica fs (listaDate anchor D)).1 <;> rfl

/-! ## Claim C2 (`controlla_file_archivio_completo`) -/

/-- Claim C2: the scan enumerates exactly `C+1` hourly identities, one
hour apart from `T - E - C` to `T - E` with both ends included, and
classifies each as exactly one of present-valid, missing, or corrupt, so
that `trovati + |mancanti| + |corrotti| = C + 1`. -/
theorem C2_scan_enumeration_and_partition (fs : ArchiveFS) (T : ℤ) (C E : ℕ) :
    hourRange (T - E - C) (T - E)
        = (List.range (C + 1)).map (fun i : ℕ => T - E - C + (i : ℤ)) ∧
    (controlla_file_archivio_completo fs T C E).trovati
        + (controlla_file_archivio_completo fs T C E).mancanti.length
        + (controlla_file_archivio_completo fs T C E).corrotti.length = C + 1 := by
  have henum : hourRange (T - E - C) (T - E)
      = (List.range (C + 1)).map (fun i : ℕ => T - E - C + (i : ℤ)) := by
    have h := hourRange_eq_range C (T - E - C)
    have h2 : T - E - C + (C : ℤ) = T - E := by ring
    rw [h2] at h
    exact h
  refine ⟨henum, ?_⟩
  have hcount := foldl_scanStep_count fs (hourRange (T - E - C) (T - E)) ⟨0, [], []⟩
  rw [henum] at hcount
  simp only [scanCount, List.length_map, List.length_range] at hcount
  have : scanCount (controlla_file_archivio_completo fs T C E) = C + 1 := by
    rw [controlla_file_archivio_completo, henum]
    simpa [scanCount] using hcount
  simpa [scanCount] using this

/-! ## Claim C1 (`calcolo_cumulata`, all files valid) -/

/-- Claim C1: for every duration `D ≥ 1`, when every hourly file of the
aggregation window is present and valid, `calcolo_cumulata` succeeds, its
problem list is empty, and every cell of the resulting buffer is the
arithmetic sum of the corresponding cells of the `D` hourly layers. -/
theorem C1_cumulata_all_valid (fs : ArchiveFS) (anchor : ℤ) (D : ℕ) (hD : 1 ≤ D)
    (hall : ∀ t ∈ listaDate anchor D, (fs t).isValid = true) :
    (calcolo_cumulata fs anchor D).success = true ∧
    (calcolo_cumulata fs anchor D).problemi = [] ∧
    ∃ B, (calcolo_cumulata fs anchor D).buffer = some B ∧
      ∀ i j, B i j = ((listaDate anchor D).map (fun t => (fs t).grid0 i j)).sum := by
  have hcl := classifica_all_valid fs (listaDate anchor D) hall
  obtain ⟨d0, rest, hde⟩ : ∃ d0 rest, listaDate anchor D = d0 :: rest := by
    cases hld : listaDate anchor D with
    | nil =>
      exfalso
      have hlen := listaDate_length anchor D
      rw [hld] at hlen
      simp at hlen
      omega
    | cons a l => exact ⟨a, l, rfl⟩
  rw [hde] at hcl
  have hrun : calcolo_cumulata fs anchor D =
      ⟨true, [],
        some (rest.foldl (fun acc t => fun i j => acc i j + (fs t).grid0 i j)
          ((fs d0).grid0)),
        fun t =>
          if t = d0 then
            match fs d0 with
            | .valid g _ => .valid g 4326
            | s => s
          else fs t⟩ := by
    rw [calcolo_cumulata, hde, hcl]
  rw [hrun]
  refine ⟨rfl, rfl, _, rfl, ?_⟩
  intro i j
  rw [foldl_grid_apply, hde, List.map_cons, List.sum_cons]

/-- Claim C1, witness: duration 1 over an archive where every slot is
valid. -/
theorem C1_witness :
    (1 ≤ 1 ∧ ∀ t ∈ listaDate 0 1, (fsAllValid t).isValid = true) ∧
      ((calcolo_cumulata fsAllValid 0 1).success = true ∧
        (calcolo_cumulata fsAllValid 0 1).problemi = [] ∧
        ∃ B, (calcolo_cumulata fsAllValid 0 1).buffer = some B ∧
          ∀ i j, B i j = ((listaDate 0 1).map (fun t => (fsAllValid t).grid0 i j)).sum) :=
  ⟨⟨le_refl 1, fun _ _ => rfl⟩,
    C1_cumulata_all_valid fsAllValid 0 1 (le_refl 1) (fun _ _ => rfl)⟩

/-! ## Claim C4 (`calcolo_cumulata`, no valid file) -/

/-- Claim C4: when every required hourly file is missing or corrupt, the
aggregation fails, produces no buffer, and its problem list has exactly
one annotated entry per required hour (length `D`, in window order). -/
theorem C4_cumulata_all_invalid (fs : ArchiveFS) (anchor : ℤ) (D : ℕ)
    (hall : ∀ t ∈ listaDate anchor D, (fs t).isValid = false) :
    (calcolo_cumulata fs anchor D).success = false ∧
    (calcolo_cumulata fs anchor D).buffer = none ∧
    (calcolo_cumulata fs anchor D).problemi.length = D ∧
    (calcolo_cumulata fs anchor D).problemi.map Prod.fst = listaDate anchor D := by
  obtain ⟨hv, hp⟩ := classifica_none_valid fs (listaDate anchor D) hall
  have hrun : calcolo_cumulata fs anchor D =
      ⟨false, (classifica fs (listaDate anchor D)).2, none, fs⟩ := by
    rw [calcolo_cumulata]
    rw [hv]
  rw [hrun]
  refine ⟨rfl, rfl, ?_, hp⟩
  have := congrArg List.length hp
  rw [List.length_map, listaDate_length] at this
  exact this

/-- Claim C4, witness: duration 2 over an archive where every slot is
missing. -/
theorem C4_witness :
    (∀ t ∈ listaDate 0 2, (fsAllMissing t).isValid = false) ∧
      ((calcolo_cumulata fsAllMissing 0 2).success = false ∧
        (calcolo_cumulata fsAllMissing 0 2).buffer = none ∧
        (calcolo_cumulata fsAllMissing 0 2).problemi.length = 2 ∧
        (calcolo_cumulata fsAllMissing 0 2).problemi.map Prod.fst = listaDate 0 2) :=
  ⟨fun _ _ => rfl, C4_cumulata_all_invalid fsAllMissing 0 2 (fun _ _ => rfl)⟩

/-! ## Claim C3 (archive files are read-only?) -/

/-- Claim C3, counterexample.  `calcolo_cumulata` opens the first valid
file of the window with `rasterio.open(..., 'r+')` and assigns
`src.crs = CRS.from_epsg(4326)`, overwriting that archive file's
reference-system metadata: after a run over an archive whose files carry
EPSG:32632, the first window slot's state has changed. -/
theorem C3_counterexample :
    (calcolo_cumulata fsAllValid 0 1).fs 0 ≠ fsAllValid 0 := by
  intro h
  have h1 : (calcolo_cumulata fsAllValid 0 1).fs 0 = FileState.valid gridZero 4326 := rfl
  have h2 : fsAllValid 0 = FileState.valid gridZero 32632 := rfl
  rw [h1, h2] at h
  injection h with hg hc
  exact absurd hc (by decide)

/-- Claim C3, amended: scanning and aggregation never change any file's
cell data, and every archive file other than the first valid file of the
aggregation window is entirely unchanged; the first valid file alone has
its reference-system metadata overwritten with EPSG:4326. -/
theorem C3_amended_mutation_frame (fs : ArchiveFS) (anchor : ℤ) (D : ℕ) :
    (∀ t, ((calcolo_cumulata fs anchor D).fs t).gridOf = (fs t).gridOf) ∧
    (∀ t, (∀ l, (classifica fs (listaDate anchor D)).1 ≠ t :: l) →
      (calcolo_cumulata fs anchor D).fs t = fs t) ∧
    (∀ t l g c, (classifica fs (listaDate anchor D)).1 = t :: l →
      fs t = .valid g c → (calcolo_cumulata fs anchor D).fs t = .valid g 4326) := by
  rw [cumulata_fs_eq]
  refine ⟨?_, ?_, ?_⟩
  · intro t
    cases hc : (classifica fs (listaDate anchor D)).1 with
    | nil => rfl
    | cons f0 l =>
      by_cases ht : t = f0
      · subst ht
        simp only [if_pos rfl]
        cases hfs : fs t <;> simp [FileState.gridOf, hfs]
      · simp [if_neg ht]
  · intro t hne
    cases hc : (classifica fs (listaDate anchor D)).1 with
    | nil => rfl
    | cons f0 l =>
      have ht : t ≠ f0 := by
        intro h
        exact hne l (by rw [hc, h])
      simp [if_neg ht]
  · intro t l g c hc hf
    rw [hc]
    simp [hf]

/-- Claim C3, witness for the amended statement: over `fsAllValid` with
duration 1, a slot outside the window is unchanged, and the first valid
slot's reference system becomes 4326. -/
theorem C3_amended_witness :
    ((∀ l, (classifica fsAllValid (listaDate 0 1)).1 ≠ 5 :: l) ∧
      (calcolo_cumulata fsAllValid 0 1).fs 5 = fsAllValid 5) ∧
    ((classifica fsAllValid (listaDate 0 1)).1 = 0 :: [] ∧
      fsAllValid 0 = .valid gridZero 32632 ∧
      (calcolo_cumulata fsAllValid 0 1).fs 0 = .valid gridZero 4326) := by
  have hc : (classifica fsAllValid (listaDate 0 1)).1 = 0 :: [] := by decide
  have h5 : ∀ l, (classifica fsAllValid (listaDate 0 1)).1 ≠ 5 :: l := by
    intro l h
    rw [hc] at h
    simp at h
  exact ⟨⟨h5, (C3_amended_mutation_frame fsAllValid 0 1).2.1 5 h5⟩,
    ⟨hc, rfl, (C3_amended_mutation_frame fsAllValid 0 1).2.2 0 [] gridZero 32632 hc rfl⟩⟩

/-! ## Claims C6 and C9 (`calcola_cn_per_zone`) -/

/-- The cache-hit branch: a parseable cache whose recorded modification
times all match returns the persisted averages, opens nothing and leaves
the filesystem untouched. -/
theorem cache_hit_eq {fs : CnFS} {data : CacheData}
    (hc : fs.cacheFile = some data)
    (hm : data.mtimes.all (fun pt => fs.mtimeOf pt.1 == some pt.2) = true) :
    calcola_cn_per_zone fs = ⟨data.zone_cn, [], fs⟩ := by
  rw [calcola_cn_per_zone, hc]
  simp [hm]

/-- Claim C6: with a persisted cache whose every recorded modification
time matches the current one, `calcola_cn_per_zone` returns the persisted
per-zone averages unchanged and opens no raster; hence a second run on the
resulting state returns identical averages and opens no raster either. -/
theorem C6_cache_idempotent (fs : CnFS) (data : CacheData)
    (hc : fs.cacheFile = some data)
    (hm : data.mtimes.all (fun pt => fs.mtimeOf pt.1 == some pt.2) = true) :
    (calcola_cn_per_zone fs).zone_cn = data.zone_cn ∧
    (calcola_cn_per_zone fs).opened = [] ∧
    (calcola_cn_per_zone fs).fs = fs ∧
    (calcola_cn_per_zone (calcola_cn_per_zone fs).fs).zone_cn
      = (calcola_cn_per_zone fs).zone_cn ∧
    (calcola_cn_per_zone (calcola_cn_per_zone fs).fs).opened = [] := by
  have h1 := cache_hit_eq hc hm
  simp [h1]

/-- Claim C6, witness: a one-zone cache whose single recorded modification
time matches the filesystem. -/
theorem C6_witness :
    (fsCnHit.cacheFile = some dataCn ∧
      dataCn.mtimes.all (fun pt => fsCnHit.mtimeOf pt.1 == some pt.2) = true) ∧
      ((calcola_cn_per_zone fsCnHit).zone_cn = dataCn.zone_cn ∧
        (calcola_cn_per_zone fsCnHit).opened = [] ∧
        (calcola_cn_per_zone fsCnHit).fs = fsCnHit ∧
        (calcola_cn_per_zone (calcola_cn_per_zone fsCnHit).fs).zone_cn
          = (calcola_cn_per_zone fsCnHit).zone_cn ∧
        (calcola_cn_per_zone (calcola_cn_per_zone fsCnHit).fs).opened = []) :=
  ⟨⟨rfl, rfl⟩, C6_cache_idempotent fsCnHit dataCn rfl rfl⟩

/-- Claim C9: cache validity is decided only over the paths recorded in
the cache — when those all match, the cached mapping is returned as-is
even though a new CN raster (with a recognisable zone number whose key is
not in the cache) has been added to the folder, so the new zone is absent
from the returned mapping. -/
theorem C9_cache_ignores_new_rasters (fs : CnFS) (data : CacheData)
    (hc : fs.cacheFile = some data)
    (hm : data.mtimes.all (fun pt => fs.mtimeOf pt.1 == some pt.2) = true)
    (f : AscFile) (n : ℕ) (hf : f ∈ fs.folder)
    (hz : zoneNumOfStem f.stem = some n)
    (hnew : imKey n ∉ data.zone_cn.map Prod.fst) :
    (calcola_cn_per_zone fs).zone_cn = data.zone_cn ∧
    imKey n ∉ (calcola_cn_per_zone fs).zone_cn.map Prod.fst := by
  have h1 := cache_hit_eq hc hm
  rw [h1]
  exact ⟨rfl, hnew⟩

/-- Claim C9, witness: `cn_zone_2.ASC` was added after the cache was
written; the cache still validates and `IM-02` is absent from the result. -/
theorem C9_witness :
    (fsCnStale.cacheFile = some dataCn ∧
      dataCn.mtimes.all (fun pt => fsCnStale.mtimeOf pt.1 == some pt.2) = true ∧
      newAsc ∈ fsCnStale.folder ∧
      zoneNumOfStem newAsc.stem = some 2 ∧
      imKey 2 ∉ dataCn.zone_cn.map Prod.fst) ∧
      ((calcola_cn_per_zone fsCnStale).zone_cn = dataCn.zone_cn ∧
        imKey 2 ∉ (calcola_cn_per_zone fsCnStale).zone_cn.map Prod.fst) := by
  have hf : newAsc ∈ fsCnStale.folder := by
    rw [fsCnStale]
    exact List.mem_cons_of_mem _ (List.mem_singleton.mpr rfl)
  have hz : zoneNumOfStem newAsc.stem = some 2 := by rfl
  have hnew : imKey 2 ∉ dataCn.zone_cn.map Prod.fst := by decide
  exact ⟨⟨rfl, rfl, hf, hz, hnew⟩,
    C9_cache_ignores_new_rasters fsCnStale dataCn rfl rfl newAsc 2 hf hz hnew⟩

/-! ## Claim C7 (`calcolo_percentili` zone identifiers) -/

theorem buildPercRows_map_IM_true (P : List ℕ) (rs : List ZoneRow) :
    ∀ idx : ℕ, (buildPercRows true P idx rs).map (fun r => r.IM)
      = rs.map (fun r => r.idv + 1) := by
  induction rs with
  | nil => intro idx; rfl
  | cons r rs ih =>
    intro idx
    simp [buildPercRows, percRowOf, ih (idx + 1)]

theorem buildPercRows_map_IM_false (P : List ℕ) (rs : List ZoneRow) :
    ∀ idx : ℕ, (buildPercRows false P idx rs).map (fun r => r.IM)
      = (List.range rs.length).map (fun i : ℕ => ((idx + i : ℕ) : ℤ) + 1) := by
  induction rs with
  | nil => intro idx; rfl
  | cons r rs ih =>
    intro idx
    show (percRowOf false P idx r :: buildPercRows false P (idx + 1) rs).map
        (fun r => r.IM) = _
    rw [List.map_cons, ih (idx + 1)]
    conv_rhs => rw [List.length_cons, List.range_succ_eq_map]
    rw [List.map_cons, List.map_map]
    congr 1
    apply List.map_congr_left
    intro i _
    simp only [Function.comp_apply, Nat.succ_eq_add_one]
    omega

/-- Claim C7, counterexample.  The code builds the identifier with
`row.get('id', idx)`: when the layer has an `id` column, the attribute
value is used, not the 0-based position.  A one-row layer whose `id`
attribute is 7 yields identifier 8, not position-plus-one = 1. -/
theorem C7_counterexample :
    (calcolo_percentili [50] layerWithId).map (fun r => r.IM) = [8] ∧
    (calcolo_percentili [50] layerWithId).map (fun r => r.IM) ≠
      (List.range layerWithId.rows.length).map (fun i : ℕ => ((i : ℕ) : ℤ) + 1) := by
  constructor
  · rfl
  · intro h
    rw [show (calcolo_percentili [50] layerWithId).map (fun r => r.IM) = [8] from rfl] at h
    norm_num [layerWithId, List.range_succ] at h

/-- Claim C7, amended: when the input layer has no `id` column the
identifiers are the 1-based sequential positions; when it has an `id`
column they are the per-row `id` attribute plus one, regardless of
position. -/
theorem C7_amended_zone_ids (percList : List ℕ) (layer : ZoneLayer) :
    (layer.hasId = false →
      (calcolo_percentili percList layer).map (fun r => r.IM)
        = (List.range layer.rows.length).map (fun i : ℕ => (i : ℤ) + 1)) ∧
    (layer.hasId = true →
      (calcolo_percentili percList layer).map (fun r => r.IM)
        = layer.rows.map (fun r => r.idv + 1)) := by
  constructor
  · intro h
    rw [calcolo_percentili, h, buildPercRows_map_IM_false]
    apply List.map_congr_left
    intro i _
    simp
  · intro h
    rw [calcolo_percentili, h, buildPercRows_map_IM_true]

/-- Claim C7, witness for the amended statement: both branches on a
one-row layer with `id = 7`. -/
theorem C7_witness :
    (layerWithId.hasId = true ∧
      (calcolo_percentili [50] layerWithId).map (fun r => r.IM)
        = layerWithId.rows.map (fun r => r.idv + 1)) ∧
    (layerNoId.hasId = false ∧
      (calcolo_percentili [50] layerNoId).map (fun r => r.IM)
        = (List.range layerNoId.rows.length).map (fun i : ℕ => (i : ℤ) + 1)) :=
  ⟨⟨rfl, (C7_amended_zone_ids [50] layerWithId).2 rfl⟩,
    ⟨rfl, (C7_amended_zone_ids [50] layerNoId).1 rfl⟩⟩

/-! ## Claim C10 (`process_sheet` leaves unconverted rows verbatim) -/

/-- The per-row function applied by `process_sheet` never touches the zone
cell. -/
theorem processRow_zona (zone_cn : List (String × ℝ)) (lam : ℝ) (row : SheetRow) :
    (processRow zone_cn lam row).zona = row.zona := by
  rw [processRow]
  cases hn : normalizza_zona row.zona with
  | none => rfl
  | some key =>
    cases hl : zone_cn.lookup key with
    | none => simp [hl]
    | some cn => simp [hl]

/-- A row whose zone cell fails normalisation is returned verbatim. -/
theorem processRow_of_unrecognized {row : SheetRow} (zone_cn : List (String × ℝ))
    (lam : ℝ) (hn : normalizza_zona row.zona = none) :
    processRow zone_cn lam row = row := by
  rw [processRow, hn]

/-- A row whose normalised key has no CN entry is returned verbatim. -/
theorem processRow_of_no_cn {row : SheetRow} {key : String}
    (zone_cn : List (String × ℝ)) (lam : ℝ)
    (hn : normalizza_zona row.zona = some key) (hl : zone_cn.lookup key = none) :
    processRow zone_cn lam row = row := by
  rw [processRow, hn]
  simp [hl]

/-- The per-row function preserves the number of value columns. -/
theorem processRow_vals_length (zone_cn : List (String × ℝ)) (lam : ℝ)
    (row : SheetRow) :
    (processRow zone_cn lam row).vals.length = row.vals.length := by
  rw [processRow]
  cases hn : normalizza_zona row.zona with
  | none => rfl
  | some key =>
    cases hl : zone_cn.lookup key with
    | none => simp [hl]
    | some cn => simp [hl]

/-- Claim C10: `process_sheet` preserves the sheet's length, row order,
zone column and per-row column count, and returns verbatim every row whose
zone cell fails normalisation or whose normalised key has no entry in the
CN mapping. -/
theorem C10_process_sheet_frame (df : List SheetRow) (zone_cn : List (String × ℝ))
    (lam : ℝ) :
    (process_sheet df zone_cn lam).length = df.length ∧
    (∀ i : ℕ, ((process_sheet df zone_cn lam)[i]?.map SheetRow.zona)
      = (df[i]?.map SheetRow.zona)) ∧
    (∀ i : ℕ, ∀ row : SheetRow, df[i]? = some row →
      normalizza_zona row.zona = none →
      (process_sheet df zone_cn lam)[i]? = some row) ∧
    (∀ i : ℕ, ∀ row : SheetRow, ∀ key : String, df[i]? = some row →
      normalizza_zona row.zona = some key → zone_cn.lookup key = none →
      (process_sheet df zone_cn lam)[i]? = some row) ∧
    (∀ i : ℕ, ∀ row row' : SheetRow, df[i]? = some row →
      (process_sheet df zone_cn lam)[i]? = some row' →
      row'.vals.length = row.vals.length) := by
  refine ⟨?_, ?_, ?_, ?_, ?_⟩
  · rw [process_sheet, List.length_map]
  · intro i
    rw [process_sheet, List.getElem?_map]
    cases hdf : df[i]? with
    | none => rfl
    | some row =>
      simp only [Option.map_some', processRow_zona]
  · intro i row hdf hn
    rw [process_sheet, List.getElem?_map, hdf]
    simp only [Option.map_some', processRow_of_unrecognized zone_cn lam hn]
  · intro i row key hdf hn hl
    rw [process_sheet, List.getElem?_map, hdf]
    simp only [Option.map_some', processRow_of_no_cn zone_cn lam hn hl]
  · intro i row row' hdf hout
    rw [process_sheet, List.getElem?_map, hdf] at hout
    simp only [Option.map_some', Option.some.injEq] at hout
    rw [← hout, processRow_vals_length]

/-- Claim C10, witness: a row whose zone cell does not normalise and a row
whose zone has no CN entry are both returned verbatim. -/
theorem C10_witness :
    (dfFrame[0]? = some ⟨.pystr "XX", [some 1]⟩ ∧
      normalizza_zona (PyVal.pystr "XX") = none ∧
      (process_sheet dfFrame [] 0)[0]? = some ⟨.pystr "XX", [some 1]⟩) ∧
    (dfFrame[1]? = some ⟨.pynum 1, [some 2]⟩ ∧
      normalizza_zona (PyVal.pynum 1) = some "IM-01" ∧
      (List.lookup "IM-01" ([] : List (String × ℝ)) = none) ∧
      (process_sheet dfFrame [] 0)[1]? = some ⟨.pynum 1, [some 2]⟩) :=
  ⟨⟨rfl, rfl,
      (C10_process_sheet_frame dfFrame [] 0).2.2.1 0 ⟨.pystr "XX", [some 1]⟩ rfl rfl⟩,
    ⟨rfl, rfl, rfl,
      (C10_process_sheet_frame dfFrame [] 0).2.2.2.1 1 ⟨.pynum 1, [some 2]⟩ "IM-01"
        rfl rfl rfl⟩⟩

end MCMOL
